import Mathlib

/-!
# Verification of the licer header-classification engine

A shallow embedding of the core of the `licer` license-header tool
(header classifier, ownership validator, file mutator, per-file
processing driver) together with proofs about the embedded functions.

Modelling conventions:

* A file's content is represented by the list of its lines
  (`List String`), i.e. the result of Go's `strings.Split(content, "\n")`.
  The Go code reads lines either with `bufio.Scanner` or with
  `strings.Split`; the two agree on contents that do not end in a
  newline and contain no carriage returns, which is the regime modelled
  here (all concrete inputs below are of this shape).
* Go string primitives (`strings.Contains`, `strings.HasPrefix`,
  `strings.TrimSpace`, `strings.ToLower`, `strings.Split`) are embedded
  as executable functions over `List Char` / `String`.  Go's
  `ToLower`/`TrimSpace` are full-Unicode; the embeddings below implement
  the ASCII behaviour, which coincides with Go's on the ASCII range (and
  in particular on every pattern the program searches for).
* File-system effects are factored out: functions receive the file's
  lines directly, and the two fallible effects that matter to the
  processing driver (read and write failures) are passed as booleans.
-/

/-- Go `unicode.IsSpace` restricted to the code points it recognises that
are relevant here: `\t \n \v \f \r`, space, NEL (U+0085), NBSP (U+00A0). -/
def goIsSpace (c : Char) : Bool :=
  c.toNat == 9 || c.toNat == 10 || c.toNat == 11 || c.toNat == 12 ||
  c.toNat == 13 || c.toNat == 32 || c.toNat == 133 || c.toNat == 160

/-- ASCII lower-casing of one character, as performed by `strings.ToLower`
on the ASCII range (A–Z ↦ a–z, everything else unchanged). -/
def lowerChar (c : Char) : Char :=
  if 65 ≤ c.toNat ∧ c.toNat ≤ 90 then Char.ofNat (c.toNat + 32) else c

/-- `listStarts p l` is true iff `p` is a leading segment of `l`
(Go `strings.HasPrefix` over the character list). -/
def listStarts : List Char → List Char → Bool
  | [], _ => true
  | _ :: _, [] => false
  | p :: ps, c :: cs => p == c && listStarts ps cs

/-- `listHasSub pat l` is true iff `pat` occurs contiguously inside `l`
(Go `strings.Contains` over the character list; `listHasSub [] l = true`). -/
def listHasSub : List Char → List Char → Bool
  | pat, [] => listStarts pat []
  | pat, c :: t => listStarts pat (c :: t) || listHasSub pat t

/-- Drop the maximal all-space suffix (the trailing half of `TrimSpace`). -/
def dropTrail : List Char → List Char
  | [] => []
  | c :: t =>
    let r := dropTrail t
    if r.isEmpty && goIsSpace c then [] else c :: r

/-- `strings.TrimSpace` over the character list. -/
def trimChars (l : List Char) : List Char :=
  dropTrail (l.dropWhile goIsSpace)

/-- Split a character list at `'\n'` (Go `strings.Split(s, "\n")`):
always returns at least one (possibly empty) segment. -/
def splitNL : List Char → List (List Char)
  | [] => [[]]
  | c :: cs =>
    match splitNL cs with
    | [] => [[]]
    | h :: t => if c == '\n' then [] :: h :: t else (c :: h) :: t

/-- Go `strings.Contains s sub`. -/
def goContains (s sub : String) : Bool := listHasSub sub.data s.data

/-- Go `strings.HasPrefix s p`. -/
def goStartsWith (s p : String) : Bool := listStarts p.data s.data

/-- Go `strings.TrimSpace`. -/
def goTrim (s : String) : String := ⟨trimChars s.data⟩

/-- Go `strings.ToLower` (ASCII behaviour). -/
def goToLower (s : String) : String := ⟨s.data.map lowerChar⟩

/-- Go `strings.Split(s, "\n")`. -/
def goSplitLines (s : String) : List String := (splitNL s.data).map (⟨·⟩)

/-! ## Header classifier (`header_detector.go`) -/

/-- The classifier's verdict for one file (`HeaderInfo` in the source). -/
structure HeaderInfo where
  HasHeader : Bool
  HasThirdPartyCopyright : Bool
  StartLine : Int
  EndLine : Int
  HasShebang : Bool
  deriving DecidableEq, Repr

/-- `containsSPDXIdentifier` from the source: case-insensitive substring
test for the license-identifier marker. -/
def containsSPDXIdentifier (line : String) : Bool :=
  goContains (goToLower line) "spdx-license-identifier"

/-- `isCommentLine` from the source: the trimmed line is nonempty and
starts with one of the fixed comment markers. -/
def isCommentLine (line : String) : Bool :=
  let t := goTrim line
  if t == "" then false
  else
    ["//", "#", "/*", "*", ";;", "--", "\"", "REM", "C", "!", "%"].any
      fun p => goStartsWith t p

/-- The backward walk of `findHeaderStart`: the source iterates
`i := spdxLine-2` down to `startLine`, treating out-of-range lines and
lines that are comments or contain a continuation keyword as header
content, and returning `i+1` at the first line that is neither.  Here
the counter `n` counts the remaining iterations, so the visited index is
`startLine + n - 1`.  (The source's `i < 0` guard is unreachable because
`i ≥ startLine ≥ 0` throughout.) -/
def findHeaderStartScan (lines : List String) (startLine : Nat) : Nat → Nat
  | 0 => startLine
  | n + 1 =>
    let i := startLine + n
    if lines.length ≤ i then findHeaderStartScan lines startLine n
    else
      let low := goToLower (goTrim (lines.getD i ""))
      if goContains low "copyright" || goContains low "licensed under" ||
         goContains low "developed by" || goContains low "author" ||
         isCommentLine (lines.getD i "") then
        findHeaderStartScan lines startLine n
      else i + 1

/-- `findHeaderStart` from the source: `spdxLine` is the 1-based number of
the line containing the marker; the result is the 0-based start of the
header block (skipping a shebang on line 0). -/
def findHeaderStart (lines : List String) (spdxLine : Nat) : Nat :=
  let startLine := if goStartsWith (goTrim (lines.getD 0 "")) "#!" then 1 else 0
  if startLine + 2 ≤ spdxLine then
    findHeaderStartScan lines startLine (spdxLine - 1 - startLine)
  else startLine

/-- The forward walk of `findHeaderEnd` over the lines after the marker
line; `j` is the 0-based index of the head of the remaining list and `e`
the current candidate end line.  (The source's first branch,
`line == "" && isCommentLine(...)`, can never fire because
`isCommentLine` is false on blank lines; it is kept verbatim.) -/
def findHeaderEndScan : List String → Nat → Int → Int
  | [], _, e => e
  | raw :: rest, j, e =>
    let t := goTrim raw
    if t == "" && isCommentLine raw then findHeaderEndScan rest (j + 1) j
    else
      let low := goToLower t
      if goContains low "see license" || goContains low "developed by" ||
         goContains low "oregon state university" || isCommentLine raw then
        findHeaderEndScan rest (j + 1) j
      else e

/-- `findHeaderEnd` from the source: scan forward from the line after
`spdxLine`, extending the end over comment lines and continuation
keywords; stops at the first other line.  For `spdxLine = -1` (possible:
see `C4` below) the scan starts at line 0. -/
def findHeaderEnd (lines : List String) (spdxLine : Int) : Int :=
  let startIdx := (spdxLine + 1).toNat
  findHeaderEndScan (lines.drop startIdx) startIdx spdxLine

/-- The license-boilerplate test applied by
`findThirdPartyCopyrightBlock` to decide whether a line still belongs to
the third-party block. -/
def isLicenseBoilerplate (raw : String) : Bool :=
  let t := goTrim raw
  let low := goToLower t
  goContains low "permission" || goContains low "license" ||
  goContains low "software" || goContains low "rights" ||
  goContains low "distribute" || goContains low "modify" ||
  goContains low "use" || goContains low "without warranty" ||
  goContains low "liability" || goContains low "damages" ||
  isCommentLine raw || t == ""

/-- The scanning loop of `findThirdPartyCopyrightBlock` over the lines
after line 0; `j` is the 0-based index of the head of the remaining
list, `s`/`e` the current start/end (−1 when unset). -/
def tpLoop : List String → Nat → Int → Int → Int × Int
  | [], _, s, e => (s, e)
  | raw :: rest, j, s, e =>
    let t := goTrim raw
    let s' := if s == -1 && goContains (goToLower t) "copyright" then (j : Int) else s
    if s' == -1 then tpLoop rest (j + 1) s' e
    else if isLicenseBoilerplate raw then tpLoop rest (j + 1) s' (j : Int)
    else (s', e)

/-- `findThirdPartyCopyrightBlock` from the source: locate the copyright
line (skipping a shebang on line 0), then expand the end over
boilerplate lines; a start with no recorded end collapses to the
single-line span. -/
def findThirdPartyCopyrightBlock (lines : List String) : Int × Int :=
  match lines with
  | [] => (-1, -1)
  | l0 :: rest =>
    let t0 := goTrim l0
    let s0 : Int :=
      if goStartsWith t0 "#!" then -1
      else if goContains (goToLower t0) "copyright" then 0
      else -1
    let p := tpLoop rest 1 s0 (-1)
    if p.1 != -1 && p.2 == -1 then (p.1, p.1) else p

/-- One step of `DetectExistingHeader`'s scan of lines 1 and 2: if line
`idx` exists and carries the marker, record it (the header start is
computed by the backward walk unless already known; the end becomes this
line).  State: (hasHeader, startLine, endLine). -/
def spdxStep (lines : List String) (idx : Nat) (st : Bool × Int × Int) :
    Bool × Int × Int :=
  if idx < lines.length then
    if containsSPDXIdentifier (goTrim (lines.getD idx "")) then
      (true,
       if st.2.1 == -1 then (findHeaderStart lines (idx + 1) : Int) else st.2.1,
       (idx : Int))
    else st
  else st

/-- The tail scan of `DetectExistingHeader`: look for the marker on lines
`j, j+1, …` while the line index stays below 20 (the source's
`maxLinesToCheck`), returning the index of the first hit. -/
def scanRem : List String → Nat → Option Nat
  | [], _ => none
  | raw :: rest, j =>
    if j < 20 then
      if containsSPDXIdentifier (goTrim raw) then some j
      else scanRem rest (j + 1)
    else none

/-- `DetectExistingHeader` from the source, as a function of the file's
lines.  Line 0 is checked for a shebang and the marker; lines 1–2 for
the marker; absent a marker so far, lines 0–2 for a third-party
copyright mention; then lines 3–19 for the marker.  A found header gets
its end extended by `findHeaderEnd`; otherwise a third-party hit gets
its span from `findThirdPartyCopyrightBlock`. -/
def DetectExistingHeader (lines : List String) : HeaderInfo :=
  match lines with
  | [] => ⟨false, false, -1, -1, false⟩
  | _ :: _ =>
    let t0 := goTrim (lines.getD 0 "")
    let hasShebang := goStartsWith t0 "#!"
    let h0 := containsSPDXIdentifier t0
    let st0 : Bool × Int × Int := (h0, if h0 then 0 else -1, -1)
    let st2 := spdxStep lines 2 (spdxStep lines 1 st0)
    let hasThird := !st2.1 &&
      (lines.take 3).any fun l => goContains (goToLower (goTrim l)) "copyright"
    let stF :=
      match scanRem (lines.drop 3) 3 with
      | some j =>
        (true,
         if st2.2.1 == -1 then (findHeaderStart lines (j + 1) : Int) else st2.2.1,
         (j : Int))
      | none => st2
    if stF.1 then
      ⟨true, hasThird, stF.2.1, findHeaderEnd lines stF.2.2, hasShebang⟩
    else if hasThird then
      let tp := findThirdPartyCopyrightBlock lines
      ⟨false, true, tp.1, tp.2, hasShebang⟩
    else
      ⟨false, false, stF.2.1, stF.2.2, hasShebang⟩

/-! ## Ownership validator and header removal (`header_remover.go`) -/

/-- The identity configuration (`Config` in the source). -/
structure Config where
  FullName : String
  DefaultRole : String
  DeptOrLab : String
  Organization : String
  deriving DecidableEq, Repr

/-- Go slice `lines[a : b+1]` (indices `a … b`), as used by
`CanRemoveHeader` to extract the header lines. -/
def goSlice (lines : List String) (a b : Int) : List String :=
  (lines.drop a.toNat).take (b + 1 - a).toNat

/-- The text `CanRemoveHeader` extracts for the span recorded in
`info`: the lines `StartLine … EndLine` joined by newlines when both
bounds are inside the file, the empty string otherwise. -/
def headerTextOf (lines : List String) (info : HeaderInfo) : String :=
  let headerLines :=
    if info.StartLine < (lines.length : Int) ∧ info.EndLine < (lines.length : Int)
    then goSlice lines info.StartLine info.EndLine
    else []
  String.intercalate "\n" headerLines

/-- `CanRemoveHeader` from the source: requires a detected first-party
header, the marker inside the extracted header text, and the configured
full name or organization verbatim in that text. -/
def CanRemoveHeader (lines : List String) (config : Config) : Bool :=
  let headerInfo := DetectExistingHeader lines
  if !headerInfo.HasHeader then false
  else
    let headerText := headerTextOf lines headerInfo
    let hasSPDX := goContains (goToLower headerText) "spdx-license-identifier"
    if !hasSPDX then false
    else
      goContains headerText config.FullName ||
      goContains headerText config.Organization

/-- The blank-line consumption after the removed span in `RemoveHeader`
(`for skipIndex < len(lines) && TrimSpace(lines[skipIndex]) == ""`). -/
def dropLeadingBlank : List String → List String
  | [] => []
  | l :: rest => if goTrim l == "" then dropLeadingBlank rest else l :: rest

/-- `RemoveHeader` from the source, as the transformation it performs on
the file's lines: a file without a detected header is left unchanged;
otherwise the lines up to `EndLine` (after the preserved shebang, if
any) and any immediately following blank lines are removed. -/
def RemoveHeader (lines : List String) : List String :=
  let headerInfo := DetectExistingHeader lines
  if !headerInfo.HasHeader then lines
  else
    let rest := dropLeadingBlank (lines.drop (headerInfo.EndLine + 1).toNat)
    if headerInfo.HasShebang then lines.getD 0 "" :: rest else rest

/-! ## Comment-style registry (`comment_styles.go`) -/

/-- A comment syntax (`CommentStyle` in the source); omitted fields are
Go's zero value `""`. -/
structure CommentStyle where
  Line : String
  BlockStart : String
  BlockEnd : String
  deriving DecidableEq, Repr

set_option maxHeartbeats 1000000 in
/-- The `commentStyles` table from the source. -/
def commentStyles : List (String × CommentStyle) :=
  [(".go", ⟨"//", "/*", "*/"⟩), (".py", ⟨"#", "", ""⟩), (".sh", ⟨"#", "", ""⟩),
   (".rb", ⟨"#", "", ""⟩), (".js", ⟨"//", "/*", "*/"⟩), (".mjs", ⟨"//", "/*", "*/"⟩),
   (".cjs", ⟨"//", "/*", "*/"⟩), (".ts", ⟨"//", "/*", "*/"⟩), (".tsx", ⟨"//", "/*", "*/"⟩),
   (".jsx", ⟨"//", "/*", "*/"⟩), (".html", ⟨"<!--", "<!--", "-->"⟩),
   (".htm", ⟨"<!--", "<!--", "-->"⟩), (".css", ⟨"/*", "/*", "*/"⟩),
   (".scss", ⟨"//", "/*", "*/"⟩), (".sass", ⟨"//", "/*", "*/"⟩),
   (".less", ⟨"//", "/*", "*/"⟩), (".java", ⟨"//", "/*", "*/"⟩),
   (".c", ⟨"//", "/*", "*/"⟩), (".cpp", ⟨"//", "/*", "*/"⟩), (".cc", ⟨"//", "/*", "*/"⟩),
   (".cxx", ⟨"//", "/*", "*/"⟩), (".h", ⟨"//", "/*", "*/"⟩), (".hpp", ⟨"//", "/*", "*/"⟩),
   (".rs", ⟨"//", "/*", "*/"⟩), (".swift", ⟨"//", "/*", "*/"⟩), (".kt", ⟨"//", "/*", "*/"⟩),
   (".scala", ⟨"//", "/*", "*/"⟩), (".cs", ⟨"//", "/*", "*/"⟩), (".yaml", ⟨"#", "", ""⟩),
   (".yml", ⟨"#", "", ""⟩), (".toml", ⟨"#", "", ""⟩), (".ini", ⟨"#", "", ""⟩),
   (".cfg", ⟨"#", "", ""⟩), (".conf", ⟨"#", "", ""⟩), (".sql", ⟨"--", "/*", "*/"⟩),
   (".lua", ⟨"--", "--[[", "--]]"⟩), (".r", ⟨"#", "", ""⟩), (".R", ⟨"#", "", ""⟩),
   (".rmd", ⟨"<!--", "<!--", "-->"⟩), (".Rmd", ⟨"<!--", "<!--", "-->"⟩),
   (".m", ⟨"//", "/*", "*/"⟩), (".mm", ⟨"//", "/*", "*/"⟩), (".vim", ⟨"\"", "", ""⟩),
   (".vimrc", ⟨"\"", "", ""⟩), (".el", ⟨";;", "", ""⟩), (".lisp", ⟨";;", "", ""⟩),
   (".lsp", ⟨";;", "", ""⟩), (".clj", ⟨";;", "", ""⟩), (".cljs", ⟨";;", "", ""⟩),
   (".hs", ⟨"--", "\x7b-", "-\x7d"⟩), (".lhs", ⟨"--", "\x7b-", "-\x7d"⟩), (".ml", ⟨"(*", "", "*)"⟩),
   (".mli", ⟨"(*", "", "*)"⟩), (".pas", ⟨"//", "\x7b", "\x7d"⟩), (".pl", ⟨"#", "", ""⟩),
   (".pm", ⟨"#", "", ""⟩), (".php", ⟨"//", "/*", "*/"⟩), (".dart", ⟨"//", "/*", "*/"⟩),
   (".f", ⟨"C", "C", "C"⟩), (".f90", ⟨"!", "!", "!"⟩), (".f95", ⟨"!", "!", "!"⟩),
   (".jl", ⟨"#", "#=", "=#"⟩), (".zig", ⟨"//", "", ""⟩), (".nim", ⟨"#", "#[", "]#"⟩),
   (".cr", ⟨"#", "", ""⟩), (".d", ⟨"//", "/*", "*/"⟩), (".ex", ⟨"#", "", ""⟩),
   (".exs", ⟨"#", "", ""⟩), (".erl", ⟨"%", "", ""⟩), (".hrl", ⟨"%", "", ""⟩),
   (".fs", ⟨"//", "(*", "*)"⟩), (".fsx", ⟨"//", "(*", "*)"⟩), (".fsi", ⟨"//", "(*", "*)"⟩),
   (".v", ⟨"//", "/*", "*/"⟩), (".vv", ⟨"//", "/*", "*/"⟩), (".bat", ⟨"REM", "", ""⟩),
   (".cmd", ⟨"REM", "", ""⟩), (".ps1", ⟨"#", "<#", "#>"⟩), (".psm1", ⟨"#", "<#", "#>"⟩),
   ("", ⟨"#", "", ""⟩)]

/-- The `excludedExtensions` table from the source. -/
def excludedExtensions : List String :=
  [".md", ".txt", ".json", ".xml", ".csv", ".tsv", ".log", ".out", ".pdf",
   ".doc", ".docx", ".xls", ".xlsx", ".ppt", ".pptx", ".zip", ".tar", ".gz",
   ".bz2", ".xz", ".7z", ".rar", ".png", ".jpg", ".jpeg", ".gif", ".bmp",
   ".tiff", ".svg", ".ico", ".mp3", ".mp4", ".avi", ".mov", ".mkv", ".wav",
   ".flac", ".exe", ".dll", ".so", ".dylib", ".a", ".lib", ".obj", ".o",
   ".class", ".jar", ".war", ".ear", ".pyc", ".pyo", ".pyd", ".whl", ".egg",
   ".deb", ".rpm", ".msi", ".dmg", ".iso", ".img"]

/-- Map lookup in the `commentStyles` table. -/
def lookupStyle (ext : String) : Option CommentStyle :=
  (commentStyles.find? fun p => p.1 == ext).map (·.2)

/-- `GetCommentStyle` from the source, parameterised by the filename's
extension (Go computes it as `filepath.Ext(filename)`) and by the result
of the binary-content sniff `isTextFile` (an I/O effect). -/
def GetCommentStyle (ext : String) (isText : Bool) : Option CommentStyle :=
  let e := goToLower ext
  if excludedExtensions.contains e then none
  else
    match lookupStyle e with
    | some style => some style
    | none =>
      if e == "" then
        if isText then some ((lookupStyle "").getD ⟨"", "", ""⟩) else none
      else none

/-- `ShouldProcessFile` from the source, parameterised like
`GetCommentStyle`. -/
def ShouldProcessFile (ext : String) (isText : Bool) : Bool :=
  let e := goToLower ext
  if excludedExtensions.contains e then false
  else if (lookupStyle e).isNone && !(e == "") then false
  else if e == "" then isText
  else true

/-- `FormatHeader` from the source: block-comment wrapping for the
`/*`-only style, line-comment markers for every other style. -/
def FormatHeader (header : String) (style : CommentStyle) : String :=
  let hlines := goSplitLines header
  if style.Line == "/*" && style.BlockStart == "/*" && style.BlockEnd == "*/" then
    String.intercalate "\n"
      (["/*"] ++
       hlines.map (fun l => if goTrim l == "" then " *" else " * " ++ l) ++
       [" */"])
  else
    String.intercalate "\n"
      (hlines.map fun l => if goTrim l == "" then style.Line else style.Line ++ " " ++ l)

/-! ## File mutator and per-file driver (`processor.go`) -/

/-- `modifyFile` from the source, as the transformation it performs on
the file's lines: replace mode (an existing header or third-party block
was detected) keeps a shebang plus a blank line, then emits the new
header, a blank line, and the lines after `EndLine`; insert mode keeps a
shebang plus a blank line, then emits the new header, a blank line, and
the original body. -/
def modifyFile (lines : List String) (newHeader : String)
    (headerInfo : HeaderInfo) : List String :=
  let headerLines := goSplitLines newHeader
  if headerInfo.HasHeader || headerInfo.HasThirdPartyCopyright then
    let rest :=
      if headerInfo.EndLine + 1 < (lines.length : Int)
      then lines.drop (headerInfo.EndLine + 1).toNat
      else []
    if headerInfo.HasShebang then
      lines.getD 0 "" :: "" :: (headerLines ++ [""] ++ rest)
    else headerLines ++ [""] ++ rest
  else
    if headerInfo.HasShebang then
      lines.getD 0 "" :: "" ::
        (headerLines ++ [""] ++ (if 1 < lines.length then lines.drop 1 else []))
    else headerLines ++ [""] ++ lines

/-- The outcome of one file (`ProcessResult` in the source). -/
structure ProcessResult where
  Action : String
  Reason : String
  Modified : Bool
  deriving DecidableEq, Repr

/-- `processRemoveMode` from the source.  `ext`/`isText` parameterise the
comment-style lookup as in `GetCommentStyle`; `readErr` models a file
read failure (which makes `CanRemoveHeader` and `DetectExistingHeader`
return an error) and `writeErr` a write failure in `RemoveHeader`. -/
def processRemoveMode (ext : String) (isText readErr writeErr : Bool)
    (lines : List String) (config : Config) : ProcessResult :=
  if !ShouldProcessFile ext isText then
    ⟨"SKIP", "Excluded file type", false⟩
  else if readErr then
    ⟨"SKIP", "Error checking header", false⟩
  else if !CanRemoveHeader lines config then
    if !(DetectExistingHeader lines).HasHeader then
      ⟨"SKIP", "No header found", false⟩
    else
      ⟨"SKIP", "Header ownership mismatch (safety check)", false⟩
  else if writeErr then
    ⟨"SKIP", "Error removing header", false⟩
  else
    let _newContent := RemoveHeader lines
    ⟨"REMOVE", "Removed header (ownership match)", true⟩

/-- `ProcessFile` from the source.  `headerText` stands for
`GenerateHeader(config)` and `licenseType` for `GetLicenseType(config)`
(the header-template renderer lives outside the embedded core and is an
opaque collaborator); `readErr`/`writeErr` model the fallible file
reads/writes as in `processRemoveMode`. -/
def ProcessFile (ext : String) (isText readErr writeErr : Bool)
    (lines : List String) (config : Config)
    (headerText licenseType : String)
    (forceReplace removeMode : Bool) : ProcessResult :=
  if removeMode then processRemoveMode ext isText readErr writeErr lines config
  else if !ShouldProcessFile ext isText then
    ⟨"SKIP", "Excluded file type", false⟩
  else
    match GetCommentStyle ext isText with
    | none => ⟨"SKIP", "No comment style available", false⟩
    | some commentStyle =>
      if readErr then ⟨"SKIP", "Error reading file", false⟩
      else
        let headerInfo := DetectExistingHeader lines
        if headerInfo.HasHeader && !forceReplace then
          ⟨"SKIP", "Header already exists", false⟩
        else if headerInfo.HasThirdPartyCopyright && !forceReplace then
          ⟨"SKIP", "Third-party copyright found (use --force to overwrite)", false⟩
        else
          let formattedHeader := FormatHeader headerText commentStyle
          let action :=
            if headerInfo.HasHeader then "REPLACE"
            else if headerInfo.HasThirdPartyCopyright then "REPLACE"
            else "ADD"
          if writeErr then ⟨"SKIP", "Error modifying file", false⟩
          else
            let _newContent := modifyFile lines formattedHeader headerInfo
            let reason :=
              if headerInfo.HasThirdPartyCopyright then
                "Replaced third-party copyright with " ++ licenseType ++ " header"
              else "Added " ++ licenseType ++ " header"
            ⟨action, reason, true⟩

/-- The per-run counters (`ProcessingStats` in the source; the
`FilesErrored` field is never incremented by the source and is omitted). -/
structure ProcessingStats where
  FilesProcessed : Nat
  FilesModified : Nat
  FilesSkipped : Nat
  deriving DecidableEq, Repr

/-- The statistics update performed per file by
`processDirectoryRecursive` (crawler.go lines 98–103): `processed` is
always incremented; `modified` when the result is modified; otherwise
`skipped` when the action is `SKIP`. -/
def updateStats (s : ProcessingStats) (r : ProcessResult) : ProcessingStats :=
  let s' : ProcessingStats := { s with FilesProcessed := s.FilesProcessed + 1 }
  if r.Modified then { s' with FilesModified := s'.FilesModified + 1 }
  else if r.Action == "SKIP" then { s' with FilesSkipped := s'.FilesSkipped + 1 }
  else s'

/-! ## String lemmas: substring tests are invariant under trimming

The classifier applies its substring tests to trimmed lines; the spec
speaks of the raw lines.  The lemmas below show the two agree for every
search pattern that contains no whitespace characters. -/

theorem toNat_ofNat_valid (n : Nat) (h : n.isValidChar) :
    (Char.ofNat n).toNat = n := by
  rw [Char.ofNat, dif_pos h]
  simp [Char.ofNatAux, Char.toNat, UInt32.toNat, BitVec.ofNatLt]

theorem goIsSpace_lowerChar (c : Char) : goIsSpace (lowerChar c) = goIsSpace c := by
  unfold lowerChar
  split
  · rename_i h
    have hv : (c.toNat + 32).isValidChar := by left; omega
    have hL : goIsSpace (Char.ofNat (c.toNat + 32)) = false := by
      simp [goIsSpace, toNat_ofNat_valid _ hv]
      omega
    have hR : goIsSpace c = false := by
      simp [goIsSpace]
      omega
    rw [hL, hR]
  · rfl

theorem listHasSub_nil_pat (l : List Char) : listHasSub [] l = true := by
  cases l <;> simp [listHasSub, listStarts]

theorem listHasSub_cons_of (pat t : List Char) (c : Char)
    (h : listHasSub pat t = true) : listHasSub pat (c :: t) = true := by
  simp [listHasSub, h]

theorem listStarts_dropTrail (p : List Char)
    (hsp : ∀ c ∈ p, goIsSpace c = false) :
    ∀ t, listStarts p t = true → listStarts p (dropTrail t) = true := by
  induction p with
  | nil => intro t _; simp [listStarts]
  | cons d ds ih =>
    intro t h
    cases t with
    | nil => simp [listStarts] at h
    | cons c t' =>
      simp only [listStarts, Bool.and_eq_true, beq_iff_eq] at h
      obtain ⟨rfl, h2⟩ := h
      have hd : goIsSpace d = false := hsp d (List.mem_cons_self _ _)
      have : dropTrail (d :: t') = d :: dropTrail t' := by
        simp [dropTrail, hd]
      rw [this]
      have hih := ih (fun c hc => hsp c (List.mem_cons_of_mem _ hc)) t' h2
      simp [listStarts, hih]

theorem listStarts_of_dropTrail :
    ∀ (l p : List Char), listStarts p (dropTrail l) = true → listStarts p l = true := by
  intro l
  induction l with
  | nil => intro p h; simpa [dropTrail] using h
  | cons c t ih =>
    intro p h
    simp only [dropTrail] at h
    split at h
    · cases p with
      | nil => simp [listStarts]
      | cons d ds => simp [listStarts] at h
    · cases p with
      | nil => simp [listStarts]
      | cons d ds =>
        simp only [listStarts, Bool.and_eq_true, beq_iff_eq] at h ⊢
        exact ⟨h.1, ih ds h.2⟩

theorem listHasSub_dropWhile (q : Char) (qs l : List Char)
    (hq : goIsSpace q = false)
    (h : listHasSub (q :: qs) l = true) :
    listHasSub (q :: qs) (l.dropWhile goIsSpace) = true := by
  induction l with
  | nil => simp [listHasSub, listStarts] at h
  | cons c t ih =>
    simp only [listHasSub, Bool.or_eq_true] at h
    by_cases hc : goIsSpace c
    · rw [List.dropWhile_cons_of_pos hc]
      rcases h with h | h
      · exfalso
        simp only [listStarts, Bool.and_eq_true, beq_iff_eq] at h
        rw [h.1] at hq
        rw [hq] at hc
        exact Bool.false_ne_true hc
      · exact ih h
    · rw [List.dropWhile_cons_of_neg hc]
      simp [listHasSub, h]

theorem listHasSub_of_dropWhile (pat l : List Char)
    (h : listHasSub pat (l.dropWhile goIsSpace) = true) :
    listHasSub pat l = true := by
  induction l with
  | nil => simpa using h
  | cons c t ih =>
    by_cases hc : goIsSpace c
    · rw [List.dropWhile_cons_of_pos hc] at h
      exact listHasSub_cons_of _ _ _ (ih h)
    · rwa [List.dropWhile_cons_of_neg hc] at h

theorem listHasSub_dropTrail (pat : List Char) (hne : pat ≠ [])
    (hsp : ∀ c ∈ pat, goIsSpace c = false) :
    ∀ l, listHasSub pat l = true → listHasSub pat (dropTrail l) = true := by
  intro l
  induction l with
  | nil => intro h; simpa [dropTrail] using h
  | cons c t ih =>
    intro h
    simp only [listHasSub, Bool.or_eq_true] at h
    rcases h with h | h
    · obtain ⟨d, ds, rfl⟩ : ∃ d ds, pat = d :: ds := by
        cases pat with
        | nil => exact absurd rfl hne
        | cons d ds => exact ⟨d, ds, rfl⟩
      simp only [listStarts, Bool.and_eq_true, beq_iff_eq] at h
      obtain ⟨rfl, h2⟩ := h
      have hd : goIsSpace d = false := hsp d (List.mem_cons_self _ _)
      have hstep : dropTrail (d :: t) = d :: dropTrail t := by
        simp [dropTrail, hd]
      rw [hstep]
      have : listStarts ds (dropTrail t) = true :=
        listStarts_dropTrail ds (fun c hc => hsp c (List.mem_cons_of_mem _ hc)) t h2
      simp [listHasSub, listStarts, this]
    · have hsub := ih h
      have hnonempty : (dropTrail t).isEmpty = false := by
        cases hdt : dropTrail t with
        | nil =>
          rw [hdt] at hsub
          cases pat with
          | nil => exact absurd rfl hne
          | cons d ds => simp [listHasSub, listStarts] at hsub
        | cons x xs => rfl
      have hstep : dropTrail (c :: t) = c :: dropTrail t := by
        simp [dropTrail, hnonempty]
      rw [hstep]
      exact listHasSub_cons_of _ _ _ hsub

theorem listHasSub_of_dropTrail (pat : List Char) :
    ∀ l, listHasSub pat (dropTrail l) = true → listHasSub pat l = true := by
  intro l
  induction l with
  | nil => intro h; simpa [dropTrail] using h
  | cons c t ih =>
    intro h
    simp only [dropTrail] at h
    split at h
    · cases pat with
      | nil => exact listHasSub_nil_pat _
      | cons d ds => simp [listHasSub, listStarts] at h
    · simp only [listHasSub, Bool.or_eq_true] at h ⊢
      rcases h with h | h
      · cases pat with
        | nil => left; simp [listStarts]
        | cons d ds =>
          left
          simp only [listStarts, Bool.and_eq_true, beq_iff_eq] at h ⊢
          exact ⟨h.1, listStarts_of_dropTrail t ds h.2⟩
      · right; exact ih h

theorem listHasSub_trimChars (pat : List Char) (hne : pat ≠ [])
    (hsp : ∀ c ∈ pat, goIsSpace c = false) (l : List Char) :
    listHasSub pat (trimChars l) = listHasSub pat l := by
  obtain ⟨q, qs, rfl⟩ : ∃ q qs, pat = q :: qs := by
    cases pat with
    | nil => exact absurd rfl hne
    | cons q qs => exact ⟨q, qs, rfl⟩
  unfold trimChars
  by_cases h : listHasSub (q :: qs) l = true
  · have h1 := listHasSub_dropWhile q qs l (hsp q (List.mem_cons_self _ _)) h
    have h2 := listHasSub_dropTrail (q :: qs) hne hsp _ h1
    rw [h, h2]
  · have h' : listHasSub (q :: qs) l = false := by
      cases hb : listHasSub (q :: qs) l with
      | false => rfl
      | true => exact absurd hb h
    rw [h']
    cases hb : listHasSub (q :: qs) (dropTrail (l.dropWhile goIsSpace)) with
    | false => rfl
    | true =>
      exact absurd (listHasSub_of_dropWhile _ _ (listHasSub_of_dropTrail _ _ hb)) h

theorem dropWhile_map_lower (l : List Char) :
    (l.map lowerChar).dropWhile goIsSpace = (l.dropWhile goIsSpace).map lowerChar := by
  induction l with
  | nil => rfl
  | cons c t ih =>
    simp only [List.map_cons, List.dropWhile_cons, goIsSpace_lowerChar]
    by_cases hc : goIsSpace c
    · simp [hc, ih]
    · simp [hc]

theorem dropTrail_map_lower (l : List Char) :
    dropTrail (l.map lowerChar) = (dropTrail l).map lowerChar := by
  induction l with
  | nil => rfl
  | cons c t ih =>
    simp only [List.map_cons, dropTrail, ih, goIsSpace_lowerChar]
    have hempty : ((dropTrail t).map lowerChar).isEmpty = (dropTrail t).isEmpty := by
      cases dropTrail t <;> rfl
    rw [hempty]
    by_cases h : (dropTrail t).isEmpty && goIsSpace c
    · simp [h]
    · simp [h]

theorem trimChars_map_lower (l : List Char) :
    trimChars (l.map lowerChar) = (trimChars l).map lowerChar := by
  unfold trimChars
  rw [dropWhile_map_lower, dropTrail_map_lower]

/-- Substring tests on the lower-cased **trimmed** line (what the code
computes) agree with substring tests on the lower-cased raw line (what
the spec describes), for any whitespace-free nonempty pattern. -/
theorem goContains_lower_trim (s pat : String) (hne : pat.data ≠ [])
    (hsp : ∀ c ∈ pat.data, goIsSpace c = false) :
    goContains (goToLower (goTrim s)) pat = goContains (goToLower s) pat := by
  show listHasSub pat.data ((trimChars s.data).map lowerChar)
     = listHasSub pat.data (s.data.map lowerChar)
  rw [← trimChars_map_lower]
  exact listHasSub_trimChars pat.data hne hsp (s.data.map lowerChar)

/-- The shebang test on the trimmed line (what the code computes) is
implied by the shebang test on the raw line. -/
theorem goStartsWith_goTrim_shebang (s : String)
    (h : goStartsWith s "#!" = true) : goStartsWith (goTrim s) "#!" = true := by
  show listStarts ['#', '!'] (trimChars s.data) = true
  have h' : listStarts ['#', '!'] s.data = true := h
  unfold trimChars
  have hfront : s.data.dropWhile goIsSpace = s.data := by
    cases hd : s.data with
    | nil => rfl
    | cons c t =>
      rw [hd] at h'
      simp only [listStarts, Bool.and_eq_true, beq_iff_eq] at h'
      have : goIsSpace c = false := by rw [← h'.1]; rfl
      simp [List.dropWhile_cons, this]
  rw [hfront]
  exact listStarts_dropTrail ['#', '!'] (by decide) s.data h'

/-! ## Characterising the classifier's flags -/

/-- Spec-side predicate: the raw line contains the license-identifier
marker, case-insensitively. -/
def spdxOnLine (l : String) : Bool :=
  goContains (goToLower l) "spdx-license-identifier"

/-- Spec-side predicate: the raw line contains `copyright`,
case-insensitively. -/
def copyrightOnLine (l : String) : Bool :=
  goContains (goToLower l) "copyright"

theorem containsSPDXIdentifier_goTrim (l : String) :
    containsSPDXIdentifier (goTrim l) = spdxOnLine l :=
  goContains_lower_trim l "spdx-license-identifier" (by decide) (by decide)

theorem copyright_goTrim (l : String) :
    goContains (goToLower (goTrim l)) "copyright" = copyrightOnLine l :=
  goContains_lower_trim l "copyright" (by decide) (by decide)

theorem scanRem_isSome (l : List String) :
    ∀ j, (scanRem l j).isSome
      = (l.take (20 - j)).any fun x => containsSPDXIdentifier (goTrim x) := by
  induction l with
  | nil => intro j; simp [scanRem]
  | cons raw rest ih =>
    intro j
    simp only [scanRem]
    by_cases hj : j < 20
    · rw [if_pos hj]
      have htake : (raw :: rest).take (20 - j)
          = raw :: rest.take (20 - (j + 1)) := by
        have : 20 - j = (20 - (j + 1)) + 1 := by omega
        rw [this, List.take_succ_cons]
      rw [htake]
      by_cases hs : containsSPDXIdentifier (goTrim raw)
      · simp [hs]
      · simp [hs, ih (j + 1)]
    · rw [if_neg hj]
      have : 20 - j = 0 := by omega
      simp [this]

/-- Both classifier flags, characterised by the lines they inspect:
`HasHeader` is set iff the (trimmed) marker test succeeds on one of the
first three lines or the tail scan of lines 3–19 finds it;
`HasThirdPartyCopyright` is set iff the marker is absent from the first
three lines while `copyright` occurs on one of them. -/
theorem detect_flags (lines : List String) :
    (DetectExistingHeader lines).HasHeader
      = (((lines.take 3).any fun l => containsSPDXIdentifier (goTrim l))
          || (scanRem (lines.drop 3) 3).isSome)
    ∧ (DetectExistingHeader lines).HasThirdPartyCopyright
      = ((!(lines.take 3).any fun l => containsSPDXIdentifier (goTrim l))
          && (lines.take 3).any fun l => goContains (goToLower (goTrim l)) "copyright") := by
  rcases lines with _ | ⟨a, _ | ⟨b, _ | ⟨c, rest⟩⟩⟩
  · simp [DetectExistingHeader, scanRem]
  · simp only [DetectExistingHeader]
    cases hscan : scanRem ([a].drop 3) 3 with
    | some j => simp [scanRem] at hscan
    | none =>
      by_cases h0 : containsSPDXIdentifier (goTrim a)
      all_goals simp [spdxStep, h0, hscan]
      all_goals try (split <;> simp_all)
  · simp only [DetectExistingHeader]
    cases hscan : scanRem ([a, b].drop 3) 3 with
    | some j => simp [scanRem] at hscan
    | none =>
      by_cases h0 : containsSPDXIdentifier (goTrim a)
      all_goals by_cases h1 : containsSPDXIdentifier (goTrim b)
      all_goals simp [spdxStep, h0, h1, hscan]
      all_goals try (split <;> simp_all)
  · simp only [DetectExistingHeader]
    cases hscan : scanRem ((a :: b :: c :: rest).drop 3) 3 with
    | some j =>
      by_cases h0 : containsSPDXIdentifier (goTrim a)
      all_goals by_cases h1 : containsSPDXIdentifier (goTrim b)
      all_goals by_cases h2 : containsSPDXIdentifier (goTrim c)
      all_goals simp [spdxStep, h0, h1, h2, hscan]
    | none =>
      by_cases h0 : containsSPDXIdentifier (goTrim a)
      all_goals by_cases h1 : containsSPDXIdentifier (goTrim b)
      all_goals by_cases h2 : containsSPDXIdentifier (goTrim c)
      all_goals simp [spdxStep, h0, h1, h2, hscan]
      all_goals try (split <;> simp_all)

theorem take20_any_split (l : List String) (f : String → Bool) :
    (l.take 20).any f = ((l.take 3).any f || ((l.drop 3).take 17).any f) := by
  have h1 : l.take 20 = l.take 3 ++ (l.drop 3).take 17 := by
    rw [List.take_drop]
    conv_lhs => rw [← List.take_append_drop 3 (l.take 20)]
    rw [List.take_take]
    norm_num
  rw [h1, List.any_append]

/-- C5: for every file content, `DetectExistingHeader` reports
`HasHeader = true` exactly when one of the first 20 lines contains the
substring `SPDX-License-Identifier` case-insensitively. -/
theorem C5_hasHeader_iff_spdx_in_first20 (lines : List String) :
    (DetectExistingHeader lines).HasHeader = (lines.take 20).any spdxOnLine := by
  rw [(detect_flags lines).1, scanRem_isSome, take20_any_split]
  simp only [containsSPDXIdentifier_goTrim]

/-- Witness for C5 at a concrete input whose marker sits on line 4. -/
theorem C5_witness :
    (DetectExistingHeader
      ["a", "b", "c", "d", "// SPDX-License-Identifier: MIT"]).HasHeader = true :=
  (C5_hasHeader_iff_spdx_in_first20
    ["a", "b", "c", "d", "// SPDX-License-Identifier: MIT"]).trans (by decide)

/-- Counterexample to C1 as stated: on this input (no marker in the
first three lines, `copyright` on line 0, marker on line 3) the
classifier returns a verdict with **both** flags set. -/
theorem C1_counterexample :
    (DetectExistingHeader
      ["// Copyright 2020 Acme", "a", "b", "// SPDX-License-Identifier: MIT"]).HasHeader
      = true
    ∧ (DetectExistingHeader
      ["// Copyright 2020 Acme", "a", "b", "// SPDX-License-Identifier: MIT"]).HasThirdPartyCopyright
      = true := by
  constructor <;> decide

/-- C1, amended: the two flags are both true exactly when the marker is
absent from the first three lines, `copyright` occurs (case-insensitively)
in the first three lines, and the marker occurs on one of lines 3–19.
In every other case the flags are mutually exclusive. -/
theorem C1_flags_both_iff (lines : List String) :
    ((DetectExistingHeader lines).HasHeader
      && (DetectExistingHeader lines).HasThirdPartyCopyright)
    = ((!(lines.take 3).any spdxOnLine)
        && (lines.take 3).any copyrightOnLine
        && ((lines.take 20).drop 3).any spdxOnLine) := by
  obtain ⟨hH, hT⟩ := detect_flags lines
  rw [hH, hT, scanRem_isSome]
  have hdt : (lines.drop 3).take (20 - 3) = (lines.take 20).drop 3 := by
    have := List.take_drop 3 17 lines
    norm_num at this ⊢
    rw [this]
  rw [hdt]
  simp only [containsSPDXIdentifier_goTrim, copyright_goTrim]
  generalize (lines.take 3).any spdxOnLine = A
  generalize ((lines.take 20).drop 3).any spdxOnLine = S
  generalize (lines.take 3).any copyrightOnLine = C
  cases A <;> cases S <;> cases C <;> rfl

/-- Witness for C1 (amended) at a concrete input where neither flag is set. -/
theorem C1_witness :
    ((DetectExistingHeader ["// just a comment", "code"]).HasHeader
      && (DetectExistingHeader ["// just a comment", "code"]).HasThirdPartyCopyright)
    = false :=
  (C1_flags_both_iff ["// just a comment", "code"]).trans (by decide)

/-- Counterexample to C6 as stated: a shebang file with `copyright` on
line 3 (the third post-shebang line) is *not* flagged — the code scans
absolute lines 0–2, not the post-shebang window. -/
theorem C6_counterexample :
    (DetectExistingHeader ["#!/bin/sh", "x", "y", "// Copyright Acme"]).HasHeader = false
    ∧ (DetectExistingHeader
        ["#!/bin/sh", "x", "y", "// Copyright Acme"]).HasThirdPartyCopyright = false
    ∧ copyrightOnLine (["#!/bin/sh", "x", "y", "// Copyright Acme"].getD 3 "") = true := by
  refine ⟨by decide, by decide, by decide⟩

/-- C6, amended: for every file with no first-party header,
`HasThirdPartyCopyright` is true iff the case-insensitive substring
`copyright` occurs in lines 0–2 of the file counted from line 0
regardless of any shebang. -/
theorem C6_thirdParty_iff_copyright_first3 (lines : List String)
    (h : (DetectExistingHeader lines).HasHeader = false) :
    (DetectExistingHeader lines).HasThirdPartyCopyright
      = (lines.take 3).any copyrightOnLine := by
  obtain ⟨hH, hT⟩ := detect_flags lines
  rw [h] at hH
  have hA : ((lines.take 3).any fun l => containsSPDXIdentifier (goTrim l)) = false := by
    cases hx : (lines.take 3).any fun l => containsSPDXIdentifier (goTrim l)
    · rfl
    · rw [hx] at hH; simp at hH
  rw [hT, hA]
  simp only [copyright_goTrim, Bool.not_false, Bool.true_and]

/-- Witness for C6 (amended): a file with `copyright` on line 0 and no
marker is flagged as third-party. -/
theorem C6_witness :
    (DetectExistingHeader ["// Copyright Acme", "code"]).HasThirdPartyCopyright = true :=
  (C6_thirdParty_iff_copyright_first3 ["// Copyright Acme", "code"] (by decide)).trans
    (by decide)

/-- C4: evaluation of the classifier at the failing input, a single-line
file whose line 0 is `SPDX-License-Identifier: MIT` (no comment marker).
The verdict has `HasHeader = true` with `StartLine = 0` but
`EndLine = -1`: the line-0 branch of `DetectExistingHeader` records the
start without recording the end (its sibling branches set
`info.EndLine = lineNum - 1`), and `findHeaderEnd` then returns its
`spdxLine` argument `-1` unchanged because line 0 is not comment-like. -/
theorem C4_endLine_violation :
    DetectExistingHeader ["SPDX-License-Identifier: MIT"]
      = ⟨true, false, 0, -1, false⟩
    ∧ ¬((DetectExistingHeader ["SPDX-License-Identifier: MIT"]).StartLine
        ≤ (DetectExistingHeader ["SPDX-License-Identifier: MIT"]).EndLine) := by
  refine ⟨by decide, by decide⟩

/-- Identity used by the witnesses for the ownership gate. -/
def cfgJane : Config :=
  ⟨"Jane Doe", "Researcher", "Data Lab", "Acme University"⟩

/-- C2: the ownership gate of `CanRemoveHeader`.  For a file classified
with a first-party header, if the extracted header text contains neither
the configured full name nor the configured organization then the
result is `false` (even if the marker is present); and if the text
contains the marker and either identity string verbatim then the result
is `true`. -/
theorem C2_ownership_gate (lines : List String) (config : Config)
    (h : (DetectExistingHeader lines).HasHeader = true) :
    ((goContains (headerTextOf lines (DetectExistingHeader lines)) config.FullName = false
      ∧ goContains (headerTextOf lines (DetectExistingHeader lines)) config.Organization = false)
      → CanRemoveHeader lines config = false)
    ∧ ((goContains (goToLower (headerTextOf lines (DetectExistingHeader lines)))
          "spdx-license-identifier" = true
        ∧ (goContains (headerTextOf lines (DetectExistingHeader lines)) config.FullName = true
           ∨ goContains (headerTextOf lines (DetectExistingHeader lines)) config.Organization = true))
      → CanRemoveHeader lines config = true) := by
  constructor
  · rintro ⟨hn, ho⟩
    simp only [CanRemoveHeader, h, Bool.not_true, Bool.false_eq_true, if_false, hn, ho]
    split <;> simp
  · rintro ⟨hs, hno⟩
    simp only [CanRemoveHeader, h, Bool.not_true, Bool.false_eq_true, if_false, hs,
      Bool.not_true]
    rcases hno with hn | ho
    · simp [hn]
    · simp [ho]

/-- Witness for C2: a header containing both the marker and the
configured full name is removable. -/
theorem C2_witness :
    CanRemoveHeader ["// Copyright Jane Doe", "// SPDX-License-Identifier: MIT", "code"]
      cfgJane = true :=
  (C2_ownership_gate
    ["// Copyright Jane Doe", "// SPDX-License-Identifier: MIT", "code"] cfgJane
    (by decide)).2 ⟨by decide, Or.inl (by decide)⟩

theorem detect_hasShebang (a : String) (rest : List String) :
    (DetectExistingHeader (a :: rest)).HasShebang = goStartsWith (goTrim a) "#!" := by
  simp only [DetectExistingHeader]
  repeat' split
  all_goals rfl

/-- C3: shebang preservation.  For any content whose line 0 starts with
`#!`, line 0 of the output equals line 0 of the input verbatim, for the
insert and replace mutations (`modifyFile`, whichever branch the
classification selects) and for the remove mutation (`RemoveHeader`). -/
theorem C3_shebang_preserved (lines : List String) (newHeader : String)
    (h : goStartsWith (lines.headD "") "#!" = true) :
    (modifyFile lines newHeader (DetectExistingHeader lines)).headD "" = lines.headD ""
    ∧ (RemoveHeader lines).headD "" = lines.headD "" := by
  cases lines with
  | nil => simp [goStartsWith, listStarts] at h
  | cons a rest =>
    have ha : (a :: rest).headD "" = a := rfl
    rw [ha] at h ⊢
    have hs : (DetectExistingHeader (a :: rest)).HasShebang = true := by
      rw [detect_hasShebang]
      exact goStartsWith_goTrim_shebang a h
    constructor
    · by_cases hrep : ((DetectExistingHeader (a :: rest)).HasHeader
          || (DetectExistingHeader (a :: rest)).HasThirdPartyCopyright) = true
      · simp [modifyFile, hrep, hs]
      · have hrep' : ((DetectExistingHeader (a :: rest)).HasHeader
            || (DetectExistingHeader (a :: rest)).HasThirdPartyCopyright) = false := by
          cases hx : ((DetectExistingHeader (a :: rest)).HasHeader
              || (DetectExistingHeader (a :: rest)).HasThirdPartyCopyright)
          · rfl
          · exact absurd hx hrep
        simp [modifyFile, hrep', hs]
    · by_cases hhh : (DetectExistingHeader (a :: rest)).HasHeader = true
      · simp [RemoveHeader, hhh, hs]
      · have hhh' : (DetectExistingHeader (a :: rest)).HasHeader = false := by
          cases hx : (DetectExistingHeader (a :: rest)).HasHeader
          · rfl
          · exact absurd hx hhh
        simp [RemoveHeader, hhh']

/-- Witness for C3 at a concrete shebang file. -/
theorem C3_witness :
    (modifyFile ["#!/bin/sh", "code"] "// H"
      (DetectExistingHeader ["#!/bin/sh", "code"])).headD "" = "#!/bin/sh"
    ∧ (RemoveHeader ["#!/bin/sh", "code"]).headD "" = "#!/bin/sh" := by
  have h := C3_shebang_preserved ["#!/bin/sh", "code"] "// H" (by decide)
  exact ⟨h.1.trans (by decide), h.2.trans (by decide)⟩

/-! ## The span's end line never drops below −1 -/

theorem spdxStep_endLine_ge (lines : List String) (idx : Nat)
    (st : Bool × Int × Int) (h : -1 ≤ st.2.2) :
    -1 ≤ (spdxStep lines idx st).2.2 := by
  unfold spdxStep
  split
  · split
    · simp; omega
    · exact h
  · exact h

theorem findHeaderEndScan_ge (l : List String) :
    ∀ (j : Nat) (e : Int), -1 ≤ e → -1 ≤ findHeaderEndScan l j e := by
  induction l with
  | nil => intro j e h; simpa [findHeaderEndScan] using h
  | cons raw rest ih =>
    intro j e h
    simp only [findHeaderEndScan]
    split
    · exact ih (j + 1) j (by omega)
    · split
      · exact ih (j + 1) j (by omega)
      · exact h

theorem findHeaderEnd_ge (lines : List String) (e : Int) (h : -1 ≤ e) :
    -1 ≤ findHeaderEnd lines e :=
  findHeaderEndScan_ge _ _ _ h

theorem tpLoop_ge (l : List String) :
    ∀ (j : Nat) (s e : Int), -1 ≤ s → -1 ≤ e →
      -1 ≤ (tpLoop l j s e).1 ∧ -1 ≤ (tpLoop l j s e).2 := by
  induction l with
  | nil => intro j s e hs he; exact ⟨hs, he⟩
  | cons raw rest ih =>
    intro j s e hs he
    simp only [tpLoop]
    have hs' : -1 ≤ (if s == -1 && goContains (goToLower (goTrim raw)) "copyright"
        then (j : Int) else s) := by
      split
      · omega
      · exact hs
    generalize hgen : (if s == -1 && goContains (goToLower (goTrim raw)) "copyright"
        then (j : Int) else s) = s2 at hs' ⊢
    split
    · exact ih (j + 1) s2 e hs' he
    · split
      · exact ih (j + 1) s2 j hs' (by omega)
      · exact ⟨hs', he⟩

theorem findThirdPartyCopyrightBlock_ge (lines : List String) :
    -1 ≤ (findThirdPartyCopyrightBlock lines).1
    ∧ -1 ≤ (findThirdPartyCopyrightBlock lines).2 := by
  cases lines with
  | nil => exact ⟨by simp [findThirdPartyCopyrightBlock], by simp [findThirdPartyCopyrightBlock]⟩
  | cons l0 rest =>
    simp only [findThirdPartyCopyrightBlock]
    have hs0 : -1 ≤ (if goStartsWith (goTrim l0) "#!" then (-1 : Int)
        else if goContains (goToLower (goTrim l0)) "copyright" then 0 else -1) := by
      split
      · omega
      · split <;> omega
    generalize hgen : (if goStartsWith (goTrim l0) "#!" then (-1 : Int)
        else if goContains (goToLower (goTrim l0)) "copyright" then 0 else -1) = s0v at hs0 ⊢
    have h := tpLoop_ge rest 1 s0v (-1) hs0 (by omega)
    split
    · exact ⟨h.1, h.1⟩
    · exact h

theorem detect_endLine_ge (lines : List String) :
    -1 ≤ (DetectExistingHeader lines).EndLine := by
  cases lines with
  | nil => simp [DetectExistingHeader]
  | cons a rest =>
    simp only [DetectExistingHeader]
    have hst : -1 ≤ (spdxStep (a :: rest) 2 (spdxStep (a :: rest) 1
        (containsSPDXIdentifier (goTrim ((a :: rest).getD 0 "")),
         if containsSPDXIdentifier (goTrim ((a :: rest).getD 0 "")) then 0 else -1,
         (-1 : Int)))).2.2 :=
      spdxStep_endLine_ge _ _ _ (spdxStep_endLine_ge _ _ _ (by norm_num))
    generalize hgen : spdxStep (a :: rest) 2 (spdxStep (a :: rest) 1
        (containsSPDXIdentifier (goTrim ((a :: rest).getD 0 "")),
         if containsSPDXIdentifier (goTrim ((a :: rest).getD 0 "")) then 0 else -1,
         (-1 : Int))) = st2v at hst ⊢
    cases hscan : scanRem ((a :: rest).drop 3) 3 with
    | some j =>
      simp only
      repeat' split
      all_goals first
        | exact findHeaderEnd_ge _ _ (by omega)
        | exact (findThirdPartyCopyrightBlock_ge _).2
        | exact hst
        | omega
        | simp_all
    | none =>
      simp only
      repeat' split
      all_goals first
        | exact findHeaderEnd_ge _ _ hst
        | exact (findThirdPartyCopyrightBlock_ge _).2
        | exact hst

/-! ## C7/C8: shape of the replace and insert mutations -/

/-- Counterexample to C7 as stated: here the classified span is
`[1, 1]`, yet the replace mutation also drops line 0 (`int x;`), which
lies outside the excised span. -/
theorem C7_counterexample :
    (DetectExistingHeader ["int x;", "// SPDX-License-Identifier: MIT", "body"]).StartLine = 1
    ∧ (DetectExistingHeader ["int x;", "// SPDX-License-Identifier: MIT", "body"]).EndLine = 1
    ∧ modifyFile ["int x;", "// SPDX-License-Identifier: MIT", "body"] "// NEW"
        (DetectExistingHeader ["int x;", "// SPDX-License-Identifier: MIT", "body"])
      = ["// NEW", "", "body"] := by
  refine ⟨by decide, by decide, by decide⟩

/-- C7, amended: for a file classified with an existing header or
third-party block, the replace mutation replaces the **entire prefix of
the file up to `EndLine`** (keeping line 0 plus one inserted blank line
when a shebang is present) — `StartLine` is ignored — with the new
header plus one blank line; every line after `EndLine` is preserved
verbatim and consecutively. -/
theorem C7_replace_shape (lines : List String) (newHeader : String)
    (h : ((DetectExistingHeader lines).HasHeader
          || (DetectExistingHeader lines).HasThirdPartyCopyright) = true) :
    modifyFile lines newHeader (DetectExistingHeader lines)
      = (if (DetectExistingHeader lines).HasShebang then [lines.getD 0 "", ""] else [])
        ++ goSplitLines newHeader ++ [""]
        ++ lines.drop ((DetectExistingHeader lines).EndLine + 1).toNat := by
  have he := detect_endLine_ge lines
  have hrest :
      (if (DetectExistingHeader lines).EndLine + 1 < (lines.length : Int)
       then lines.drop ((DetectExistingHeader lines).EndLine + 1).toNat
       else [])
      = lines.drop ((DetectExistingHeader lines).EndLine + 1).toNat := by
    split
    · rfl
    · rename_i hge
      have hlen : lines.length ≤ ((DetectExistingHeader lines).EndLine + 1).toNat := by
        omega
      rw [List.drop_eq_nil_of_le hlen]
  simp only [modifyFile, h, if_true, hrest]
  split <;> simp

/-- Witness for C7 (amended) at a concrete header file. -/
theorem C7_witness :
    modifyFile ["// Copyright X", "// SPDX-License-Identifier: MIT", "code"] "// H"
      (DetectExistingHeader ["// Copyright X", "// SPDX-License-Identifier: MIT", "code"])
      = ["// H", "", "code"] :=
  (C7_replace_shape ["// Copyright X", "// SPDX-License-Identifier: MIT", "code"] "// H"
    (by decide)).trans (by decide)

/-- Counterexample to C8 as stated: for the shebang scenario the insert
mutation puts a **blank** line at line 1; the header block starts only
at line 2, not "immediately after the shebang at line 1". -/
theorem C8_counterexample :
    modifyFile ["#!/bin/bash", "echo hi"] "// Test Header"
      (DetectExistingHeader ["#!/bin/bash", "echo hi"])
      = ["#!/bin/bash", "", "// Test Header", "", "echo hi"]
    ∧ (modifyFile ["#!/bin/bash", "echo hi"] "// Test Header"
        (DetectExistingHeader ["#!/bin/bash", "echo hi"])).getD 1 "" ≠ "// Test Header" := by
  refine ⟨by decide, by decide⟩

/-- C8, amended: for the input `#!/bin/bash\necho hi` the insert
mutation yields the unchanged shebang at line 0, **one blank line at
line 1**, the formatted header block starting at line 2, one blank
line, and then the untouched `echo hi`. -/
theorem C8_shebang_insert (newHeader : String) :
    modifyFile ["#!/bin/bash", "echo hi"] newHeader
      (DetectExistingHeader ["#!/bin/bash", "echo hi"])
      = ["#!/bin/bash", ""] ++ goSplitLines newHeader ++ ["", "echo hi"] := by
  have hinfo : DetectExistingHeader ["#!/bin/bash", "echo hi"]
      = ⟨false, false, -1, -1, true⟩ := by decide
  rw [hinfo]
  simp [modifyFile]

/-- Witness for C8 (amended) at a concrete header. -/
theorem C8_witness :
    modifyFile ["#!/bin/bash", "echo hi"] "// H"
      (DetectExistingHeader ["#!/bin/bash", "echo hi"])
      = ["#!/bin/bash", "", "// H", "", "echo hi"] :=
  (C8_shebang_insert "// H").trans (by decide)

/-! ## C9: the end of a third-party block -/

theorem tpLoop_fst_const (l : List String) :
    ∀ (j : Nat) (s e : Int), s ≠ -1 → (tpLoop l j s e).1 = s := by
  induction l with
  | nil => intro j s e _; rfl
  | cons raw rest ih =>
    intro j s e h
    simp only [tpLoop]
    have hbeq : (s == -1) = false := by simp [h]
    have hs' : (if s == -1 && goContains (goToLower (goTrim raw)) "copyright"
        then (j : Int) else s) = s := by
      rw [hbeq]; simp
    rw [hs', hbeq]
    simp only [Bool.false_eq_true, if_false]
    split
    · exact ih (j + 1) s j h
    · rfl

theorem tpLoop_allmatch_snd (l : List String) :
    ∀ (j : Nat) (s e : Int), s ≠ -1 →
      (∀ k, k < l.length → isLicenseBoilerplate (l.getD k "") = true) →
      (tpLoop l j s e).2 = if l.length = 0 then e else (j : Int) + l.length - 1 := by
  induction l with
  | nil => intro j s e _ _; rfl
  | cons raw rest ih =>
    intro j s e h hall
    simp only [tpLoop]
    have hbeq : (s == -1) = false := by simp [h]
    have hs' : (if s == -1 && goContains (goToLower (goTrim raw)) "copyright"
        then (j : Int) else s) = s := by
      rw [hbeq]; simp
    rw [hs', hbeq]
    simp only [Bool.false_eq_true, if_false]
    have hb : isLicenseBoilerplate raw = true := by
      have := hall 0 (by simp)
      simpa using this
    rw [if_pos hb]
    have hih := ih (j + 1) s j h
      (fun k hk => by
        have := hall (k + 1) (by simpa using Nat.succ_lt_succ hk)
        simpa using this)
    rw [hih]
    by_cases hr : rest.length = 0
    · simp [hr]
    · rw [if_neg hr, if_neg (by simp)]
      simp only [List.length_cons]
      push_cast
      omega

theorem tpLoop_main (l : List String) :
    ∀ (j : Nat) (e : Int),
      (∀ k, k < l.length → ((tpLoop l j (-1) e).1 ≤ (j : Int) + k →
          isLicenseBoilerplate (l.getD k "") = true)) →
      (tpLoop l j (-1) e).1 ≠ -1 →
      (tpLoop l j (-1) e).2 = (j : Int) + l.length - 1 := by
  induction l with
  | nil =>
    intro j e _ hfound
    exact absurd rfl hfound
  | cons raw rest ih =>
    intro j e hall hfound
    by_cases hc : goContains (goToLower (goTrim raw)) "copyright" = true
    · have hjne : ((j : Int) == -1) = false := by
        simp only [beq_eq_false_iff_ne, ne_eq]
        omega
      have hs' : (if (-1 : Int) == -1 && goContains (goToLower (goTrim raw)) "copyright"
          then (j : Int) else (-1 : Int)) = (j : Int) := by
        rw [hc]; simp
      have hstep : tpLoop (raw :: rest) j (-1) e
          = if isLicenseBoilerplate raw then tpLoop rest (j + 1) (j : Int) (j : Int)
            else ((j : Int), e) := by
        simp only [tpLoop]
        rw [hs', hjne]
        simp only [Bool.false_eq_true, if_false]
      have hfst : (tpLoop (raw :: rest) j (-1) e).1 = (j : Int) := by
        rw [hstep]
        split
        · exact tpLoop_fst_const rest (j + 1) _ _ (by omega)
        · rfl
      have hb : isLicenseBoilerplate raw = true := by
        have := hall 0 (by simp)
        simp only [hfst] at this
        simpa using this (by omega)
      rw [hstep, if_pos hb] at hfound ⊢
      have hsnd := tpLoop_allmatch_snd rest (j + 1) (j : Int) (j : Int) (by omega)
        (fun k hk => by
          have := hall (k + 1) (by simpa using Nat.succ_lt_succ hk)
          simp only [hfst] at this
          simpa using this (by push_cast; omega))
      rw [hsnd]
      by_cases hr : rest.length = 0
      · simp [hr]
      · rw [if_neg hr]
        simp only [List.length_cons]
        push_cast
        omega
    · have hcb : goContains (goToLower (goTrim raw)) "copyright" = false := by
        cases hx : goContains (goToLower (goTrim raw)) "copyright"
        · rfl
        · exact absurd hx hc
      have hstep : tpLoop (raw :: rest) j (-1) e = tpLoop rest (j + 1) (-1) e := by
        simp only [tpLoop]
        rw [hcb]
        simp
      rw [hstep] at hall hfound ⊢
      have hres := ih (j + 1) e
        (fun k hk => by
          have := hall (k + 1) (by simpa using Nat.succ_lt_succ hk)
          intro hle
          apply this
          · push_cast at hle ⊢
            omega)
        hfound
      rw [hres]
      simp only [List.length_cons]
      push_cast
      omega

/-- Counterexample to C9 as stated: `copyright` on line 0, and the one
remaining line matches the boilerplate test all the way to end of file —
yet the span is `(0, 1)`, not the degenerate single copyright line. -/
theorem C9_counterexample :
    findThirdPartyCopyrightBlock ["Copyright Acme", "// more"] = (0, 1)
    ∧ isLicenseBoilerplate "// more" = true := by
  refine ⟨by decide, by decide⟩

/-- C9, amended: the forward scan stops at the first non-matching line,
but when **every** scanned line through end of file matches (blank,
comment-prefixed, or boilerplate-keyword), the span extends to the
**last line of the file**; it degenerates to the single copyright line
only when no line after the copyright line matches (in particular when
the copyright line is the last line). -/
theorem C9_block_end_all_match (lines : List String)
    (hall : ∀ k, k < lines.length →
      ((findThirdPartyCopyrightBlock lines).1 ≤ (k : Int) →
       isLicenseBoilerplate (lines.getD k "") = true))
    (hfound : (findThirdPartyCopyrightBlock lines).1 ≠ -1) :
    (findThirdPartyCopyrightBlock lines).2 = (lines.length : Int) - 1 := by
  cases lines with
  | nil => simp [findThirdPartyCopyrightBlock] at hfound
  | cons l0 rest =>
    simp only [findThirdPartyCopyrightBlock] at hall hfound ⊢
    generalize hs0 : (if goStartsWith (goTrim l0) "#!" then (-1 : Int)
        else if goContains (goToLower (goTrim l0)) "copyright" then 0 else -1) = s0v
      at hall hfound ⊢
    have hs0cases : s0v = 0 ∨ s0v = -1 := by
      rw [← hs0]
      split
      · right; rfl
      · split
        · left; rfl
        · right; rfl
    have hfst_eq : (if (tpLoop rest 1 s0v (-1)).1 != -1 && (tpLoop rest 1 s0v (-1)).2 == -1
        then ((tpLoop rest 1 s0v (-1)).1, (tpLoop rest 1 s0v (-1)).1)
        else tpLoop rest 1 s0v (-1)).1 = (tpLoop rest 1 s0v (-1)).1 := by
      split <;> rfl
    simp only [hfst_eq] at hall hfound
    rcases hs0cases with rfl | rfl
    · have hp1 : (tpLoop rest 1 (0 : Int) (-1)).1 = 0 :=
        tpLoop_fst_const rest 1 0 (-1) (by omega)
      have hp2 := tpLoop_allmatch_snd rest 1 0 (-1) (by omega)
        (fun k hk => by
          have := hall (k + 1) (by simp only [List.length_cons]; omega)
          simp only [List.getD_cons_succ, hp1] at this
          exact this (by push_cast; omega))
      by_cases hr : rest.length = 0
      · rw [hr] at hp2
        simp only [if_pos rfl] at hp2
        simp only [hp1, hp2]
        norm_num
        simp only [List.length_cons, hr]
        norm_num
      · rw [if_neg hr] at hp2
        have hne : ((tpLoop rest 1 (0 : Int) (-1)).2 == -1) = false := by
          rw [hp2]
          simp only [beq_eq_false_iff_ne, ne_eq]
          omega
        simp only [hne, Bool.and_false, Bool.false_eq_true, if_false]
        rw [hp2]
        simp only [List.length_cons]
        push_cast
        omega
    · have hp2 := tpLoop_main rest 1 (-1)
        (fun k hk => by
          have := hall (k + 1) (by simp only [List.length_cons]; omega)
          simp only [List.getD_cons_succ] at this
          intro hle
          exact this (by push_cast at hle ⊢; omega))
        hfound
      have hne : ((tpLoop rest 1 (-1 : Int) (-1)).2 == -1) = false := by
        rw [hp2]
        simp only [beq_eq_false_iff_ne, ne_eq]
        omega
      simp only [hne, Bool.and_false, Bool.false_eq_true, if_false]
      rw [hp2]
      simp only [List.length_cons]
      push_cast
      omega

/-- Witness for C9 (amended): every line of this two-line file matches
the boilerplate test, and the block's end is the last line. -/
theorem C9_witness :
    (findThirdPartyCopyrightBlock ["// Copyright Acme", "// x"]).2 = 1 :=
  (C9_block_end_all_match ["// Copyright Acme", "// x"]
    (by decide) (by decide)).trans (by norm_num)

/-! ## C10: the shape of every per-file outcome -/

/-- The per-result invariant of C10: `Modified` exactly characterises
the mutating actions, and an unmodified result is always a `SKIP`. -/
def resultInvariant (r : ProcessResult) : Prop :=
  (r.Modified = true ↔ (r.Action = "ADD" ∨ r.Action = "REPLACE" ∨ r.Action = "REMOVE"))
  ∧ (r.Modified = false → r.Action = "SKIP")

instance (r : ProcessResult) : Decidable (resultInvariant r) := by
  unfold resultInvariant
  infer_instance

theorem foldStats_invariant (rs : List ProcessResult)
    (hinv : ∀ r ∈ rs, resultInvariant r) :
    ∀ s : ProcessingStats, s.FilesProcessed = s.FilesModified + s.FilesSkipped →
      (rs.foldl updateStats s).FilesProcessed
        = (rs.foldl updateStats s).FilesModified
          + (rs.foldl updateStats s).FilesSkipped := by
  induction rs with
  | nil => intro s hs; simpa using hs
  | cons r rs ih =>
    intro s hs
    simp only [List.foldl_cons]
    apply ih (fun x hx => hinv x (List.mem_cons_of_mem _ hx))
    have hr := hinv r (List.mem_cons_self _ _)
    cases hm : r.Modified
    · have hskip : r.Action = "SKIP" := hr.2 hm
      simp [updateStats, hm, hskip, hs]
      omega
    · simp [updateStats, hm, hs]
      omega

/-- C10: for every file and every flag combination, the result of
`ProcessFile` is modified exactly when its action is `ADD`, `REPLACE`
or `REMOVE`, and every unmodified result is a `SKIP`; consequently, for
any run whose per-file results satisfy this invariant, the aggregated
counters satisfy `processed = modified + skipped`. -/
theorem C10_processFile_invariant (ext : String) (isText readErr writeErr : Bool)
    (lines : List String) (config : Config) (headerText licenseType : String)
    (forceReplace removeMode : Bool) :
    resultInvariant (ProcessFile ext isText readErr writeErr lines config
      headerText licenseType forceReplace removeMode)
    ∧ (∀ rs : List ProcessResult, (∀ r ∈ rs, resultInvariant r) →
        (rs.foldl updateStats ⟨0, 0, 0⟩).FilesProcessed
          = (rs.foldl updateStats ⟨0, 0, 0⟩).FilesModified
            + (rs.foldl updateStats ⟨0, 0, 0⟩).FilesSkipped) := by
  constructor
  · simp only [ProcessFile, processRemoveMode]
    repeat' split
    all_goals simp [resultInvariant]
  · intro rs hinv
    exact foldStats_invariant rs hinv ⟨0, 0, 0⟩ rfl

/-- Witness for C10: a fresh `.go` file gets `ADD`/modified, and the
counters at a concrete two-result run balance. -/
theorem C10_witness :
    (ProcessFile ".go" true false false ["code"] cfgJane "HDR" "MIT" false false).Modified
      = true
    ∧ (([⟨"SKIP", "x", false⟩, ⟨"ADD", "y", true⟩] : List ProcessResult).foldl
        updateStats ⟨0, 0, 0⟩).FilesProcessed
      = (([⟨"SKIP", "x", false⟩, ⟨"ADD", "y", true⟩] : List ProcessResult).foldl
          updateStats ⟨0, 0, 0⟩).FilesModified
        + (([⟨"SKIP", "x", false⟩, ⟨"ADD", "y", true⟩] : List ProcessResult).foldl
            updateStats ⟨0, 0, 0⟩).FilesSkipped := by
  constructor
  · exact (C10_processFile_invariant ".go" true false false ["code"] cfgJane
      "HDR" "MIT" false false).1.1.mpr (Or.inl (by decide))
  · exact (C10_processFile_invariant ".go" true false false ["code"] cfgJane
      "HDR" "MIT" false false).2
      [⟨"SKIP", "x", false⟩, ⟨"ADD", "y", true⟩] (by decide)
